import Mathlib

/-!
Verification of the `cpe_harbor` adapter (`src/cpe_harbor/cpe.py`).

The adapter builds a single shell command that invokes the external `cpe`
binary with a user instruction escaped by Python's `shlex.quote`, and
selects at most one API-key environment variable based on the model-name
provider.  We embed the adapter's pure logic and a POSIX-shell
field-splitting model, and prove the spec's claims about it.
-/

namespace CpeHarbor

/-! ## Python `shlex.quote`

Python's `shlex.quote(s)` returns `''` for the empty string, returns `s`
unchanged when every character is an ASCII word character or one of
`@ % + = : , . -` or the slash,
and otherwise wraps `s` in single quotes after replacing each embedded
single quote by the five characters `'"'"'`. -/

/-- The safe-character class of `shlex.quote`: ASCII `\w` (letters,
digits, underscore) plus `@ % + = : , . / -`. -/
def isSafeChar (c : Char) : Bool :=
  (c.isAlphanum && c.toNat < 128) || c = '_' || c = '@' || c = '%' || c = '+' ||
  c = '=' || c = ':' || c = ',' || c = '.' || c = '/' || c = '-'

/-- The replacement of one character inside the single-quoted body:
a single quote becomes `'"'"'`, anything else stays itself. -/
def quoteChar (c : Char) : List Char :=
  if c = '\'' then ['\'', '"', '\'', '"', '\''] else [c]

/-- The single-quoted body: `s.replace("'", "'\"'\"'")`. -/
def quoteBody : List Char → List Char
  | [] => []
  | c :: s => quoteChar c ++ quoteBody s

/-- `shlex.quote` on character lists. -/
def shlexQuoteL (s : List Char) : List Char :=
  if s = [] then ['\'', '\'']
  else if s.all isSafeChar then s
  else '\'' :: (quoteBody s ++ ['\''])

/-- `shlex.quote` on strings. -/
def shlexQuote (s : String) : String :=
  (shlexQuoteL s.data).asString

/-! ## POSIX shell field splitting (the fragment we need)

`tokLoop` models how a POSIX shell splits a simple-command text into
words: unquoted blanks separate words, single quotes preserve every
character up to the closing quote, double quotes preserve everything but
`$`, backquote and backslash (on which we refuse, returning `none`, since
expansions are outside the model), and any unquoted shell metacharacter
also yields `none`.  Where the model returns `some ws`, a real POSIX
shell splits the input into exactly the words `ws`. -/

/-- Unquoted characters that a POSIX shell does not treat as literal word
material: operators, expansion introducers, globbing and comment/tilde
characters.  (The backquote is written via its code point, U+0060.) -/
def isShSpecial (c : Char) : Bool :=
  c = '$' || c = '\u0060' || c = '\\' || c = '|' || c = '&' || c = ';' ||
  c = '<' || c = '>' || c = '(' || c = ')' || c = '*' || c = '?' ||
  c = '[' || c = '#' || c = '~' || c = '\n' || c = '\t'

/-- Quoting mode of the shell lexer: unquoted, single-quoted, double-quoted. -/
inductive QMode
  | norm
  | sq
  | dq
deriving DecidableEq

/-- Field-splitting loop: mode, whether the current word has started,
the accumulated current word, remaining input. -/
def tokLoop : QMode → Bool → List Char → List Char → Option (List (List Char))
  | .norm, started, acc, [] => if started then some [acc] else some []
  | .norm, started, acc, c :: rest =>
      if c = ' ' then
        if started then Option.map (fun ws => acc :: ws) (tokLoop .norm false [] rest)
        else tokLoop .norm false [] rest
      else if c = '\'' then tokLoop .sq true acc rest
      else if c = '"' then tokLoop .dq true acc rest
      else if isShSpecial c then none
      else tokLoop .norm true (acc ++ [c]) rest
  | .sq, _, _, [] => none
  | .sq, _, acc, c :: rest =>
      if c = '\'' then tokLoop .norm true acc rest
      else tokLoop .sq true (acc ++ [c]) rest
  | .dq, _, _, [] => none
  | .dq, _, acc, c :: rest =>
      if c = '"' then tokLoop .norm true acc rest
      else if c = '$' || c = '\u0060' || c = '\\' then none
      else tokLoop .dq true (acc ++ [c]) rest

/-- Split a character list into shell words. -/
def shellFields (s : List Char) : Option (List (List Char)) :=
  tokLoop .norm false [] s

/-! ## The adapter itself (`cpe.py`) -/

/-- One command descriptor handed to the host executor: the shell command
string and the environment-variable overlay (a key/value list built in
insertion order, mirroring the Python `dict`). -/
structure ExecInput where
  command : String
  env : List (String × String)
deriving DecidableEq, Repr

/-- `os.environ.get(k, "")` followed by `if api_key: env[k] = api_key`:
look the variable up in the ambient environment with default `""`, and
produce the singleton entry only when the value is non-empty. -/
def keyEntry (ambient : String → Option String) (k : String) : List (String × String) :=
  let v := (ambient k).getD ""
  if v = "" then [] else [(k, v)]

/-- `model_name.split("/")[0] if "/" in model_name else ""`. -/
def providerOf (m : String) : String :=
  if m.data.contains '/' then (m.data.takeWhile (fun c => c != '/')).asString else ""

/-- The environment-map construction of `create_run_agent_commands`:
Python's `if self.model_name:` guard (truthy = present and non-empty),
then three independent provider tests. -/
def apiKeyEnv (modelName : Option String) (ambient : String → Option String) :
    List (String × String) :=
  match modelName with
  | some m =>
      if m = "" then keyEntry ambient "ANTHROPIC_API_KEY"
      else
        (if providerOf m = "anthropic" ∨ providerOf m = "" then
            keyEntry ambient "ANTHROPIC_API_KEY" else []) ++
        (if providerOf m = "openai" then keyEntry ambient "OPENAI_API_KEY" else []) ++
        (if providerOf m = "gemini" ∨ providerOf m = "google" then
            keyEntry ambient "GEMINI_API_KEY" else [])
  | none => keyEntry ambient "ANTHROPIC_API_KEY"

/-- The fixed `export PATH=...` head of the command string. -/
def exportPart : String := "export PATH=\"/root/go/bin:/usr/local/go/bin:$PATH\" && "

/-- The fixed invocation text up to the escaped instruction. -/
def cpeFlagsPart : String := "cpe -n -G --skip-stdin "

/-- The fixed redirection tail of the command string. -/
def redirectPart : String := "2>&1 | tee /logs/agent/cpe.txt"

/-- The command string built by `create_run_agent_commands`. -/
def runCommandString (instruction : String) : String :=
  exportPart ++ (cpeFlagsPart ++ shlexQuote instruction ++ " ") ++ redirectPart

/-- `create_run_agent_commands`: one `ExecInput` pairing the command
string with the provider-selected environment map. -/
def createRunAgentCommands (modelName : Option String)
    (ambient : String → Option String) (instruction : String) : List ExecInput :=
  [⟨runCommandString instruction, apiKeyEnv modelName ambient⟩]

/-- Modelled from the spec: the host's mutable run-context object
(`harbor.models.agent.context.AgentContext`, not under `src/`), which the
adapter may enrich with structured results post-run.  We give it the two
kinds of content the spec mentions: structured results and metadata. -/
structure AgentContext where
  results : List String
  metadata : List (String × String)
deriving DecidableEq, Repr

/-- `populate_context_post_run`: the body is `pass`, so the context state
after the call is the state before it. -/
def populate_context_post_run (context : AgentContext) : AgentContext :=
  context

/-- `version`: Python's `self._version or "latest"` — the stored version
when it is truthy (present and non-empty), else the sentinel `"latest"`. -/
def version (stored : Option String) : String :=
  match stored with
  | none => "latest"
  | some v => if v = "" then "latest" else v

/-- `name`: the fixed agent name. -/
def agentName : String := "cpe"

/-- Modelled from the spec: the provider-to-variable mapping as the spec
words it ("anthropic" or "" to ANTHROPIC_API_KEY, "openai" to
OPENAI_API_KEY, "gemini" or "google" to GEMINI_API_KEY, anything else to
no variable), used to compare the code's environment map against the
spec's notion of the resolved key variable. -/
def resolvedKeyVar (modelName : Option String) : Option String :=
  let p := match modelName with
    | none => ""
    | some m => if m = "" then "" else providerOf m
  if p = "anthropic" ∨ p = "" then some "ANTHROPIC_API_KEY"
  else if p = "openai" then some "OPENAI_API_KEY"
  else if p = "gemini" ∨ p = "google" then some "GEMINI_API_KEY"
  else none

/-! ## Sample ambient environments for witnesses -/

/-- Ambient environment holding only `OPENAI_API_KEY=k1`. -/
def sampleEnvOpenAI : String → Option String :=
  fun k => if k = "OPENAI_API_KEY" then some "k1" else none

/-- Ambient environment holding all three keys, non-empty. -/
def sampleEnvAll : String → Option String :=
  fun k =>
    if k = "ANTHROPIC_API_KEY" then some "a" else
    if k = "OPENAI_API_KEY" then some "o" else
    if k = "GEMINI_API_KEY" then some "g" else none

/-- Empty ambient environment. -/
def sampleEnvNone : String → Option String := fun _ => none

/-! ## Lemmas about the environment map -/

/-- String append acts as list append on the underlying data. -/
lemma data_append (s t : String) : (s ++ t).data = s.data ++ t.data := rfl

/-- A key entry is empty or a singleton. -/
lemma keyEntry_length_le (ambient : String → Option String) (k : String) :
    (keyEntry ambient k).length ≤ 1 := by
  by_cases hv : (ambient k).getD "" = "" <;> simp [keyEntry, hv]

/-- Anything in a key entry carries the looked-up name and a non-empty
value present in the ambient environment. -/
lemma keyEntry_mem (ambient : String → Option String) (k : String)
    (kv : String × String) (h : kv ∈ keyEntry ambient k) :
    kv.1 = k ∧ ambient kv.1 = some kv.2 ∧ kv.2 ≠ "" := by
  unfold keyEntry at h
  by_cases hv : (ambient k).getD "" = ""
  · simp [hv] at h
  · simp only [if_neg hv, List.mem_singleton] at h
    subst h
    refine ⟨rfl, ?_, hv⟩
    cases hk : ambient k with
    | none => rw [hk] at hv; simp at hv
    | some v => simp [hk]

/-- The code's environment map is the key entry of the spec's resolved
variable: the three independent provider tests in the source agree with
the spec's provider-to-variable table. -/
lemma apiKeyEnv_eq_resolved (modelName : Option String)
    (ambient : String → Option String) :
    apiKeyEnv modelName ambient =
      (resolvedKeyVar modelName).elim [] (keyEntry ambient) := by
  cases modelName with
  | none =>
      have h : resolvedKeyVar none = some "ANTHROPIC_API_KEY" := by decide
      rw [h]
      rfl
  | some m =>
      by_cases hm : m = ""
      · subst hm
        have h : resolvedKeyVar (some "") = some "ANTHROPIC_API_KEY" := by decide
        rw [h]
        rfl
      · by_cases h1 : providerOf m = "anthropic" ∨ providerOf m = ""
        · have h2 : ¬ providerOf m = "openai" := by
            rcases h1 with h | h <;> rw [h] <;> decide
          have h3 : ¬ (providerOf m = "gemini" ∨ providerOf m = "google") := by
            rcases h1 with h | h <;> rw [h] <;> decide
          simp [apiKeyEnv, resolvedKeyVar, hm, h1, h2, h3]
        · by_cases h2 : providerOf m = "openai"
          · have h3 : ¬ (providerOf m = "gemini" ∨ providerOf m = "google") := by
              rw [h2]; decide
            simp [apiKeyEnv, resolvedKeyVar, hm, h1, h2, h3]
          · by_cases h3 : providerOf m = "gemini" ∨ providerOf m = "google"
            · simp [apiKeyEnv, resolvedKeyVar, hm, h1, h2, h3]
            · simp [apiKeyEnv, resolvedKeyVar, hm, h1, h2, h3]

/-! ## Claim theorems: environment map, command shape, hooks -/

/-- Claim C2: for every model name and ambient environment, the
environment map of the returned command descriptor contains at most one
entry; every entry is the variable corresponding to the resolved
provider, and its value is present and non-empty in the ambient
environment (an empty value is never placed in the map). -/
theorem env_map_at_most_one_key (modelName : Option String)
    (ambient : String → Option String) :
    (apiKeyEnv modelName ambient).length ≤ 1 ∧
    ∀ kv ∈ apiKeyEnv modelName ambient,
      some kv.1 = resolvedKeyVar modelName ∧ ambient kv.1 = some kv.2 ∧ kv.2 ≠ "" := by
  rw [apiKeyEnv_eq_resolved]
  cases hk : resolvedKeyVar modelName with
  | none => simp
  | some k =>
      simp only [Option.elim]
      refine ⟨keyEntry_length_le ambient k, fun kv hkv => ?_⟩
      obtain ⟨hfst, hamb, hne⟩ := keyEntry_mem ambient k kv hkv
      exact ⟨by rw [hfst], hamb, hne⟩

/-- Witness for C2 at `modelName = "openai/gpt-5"` with ambient
`OPENAI_API_KEY=k1`. -/
theorem env_map_at_most_one_key_witness :
    (apiKeyEnv (some "openai/gpt-5") sampleEnvOpenAI).length ≤ 1 ∧
    (some "OPENAI_API_KEY" = resolvedKeyVar (some "openai/gpt-5") ∧
      sampleEnvOpenAI "OPENAI_API_KEY" = some "k1" ∧ ("k1" : String) ≠ "") := by
  have h := env_map_at_most_one_key (some "openai/gpt-5") sampleEnvOpenAI
  refine ⟨h.1, ?_⟩
  have hmem : ("OPENAI_API_KEY", "k1") ∈ apiKeyEnv (some "openai/gpt-5") sampleEnvOpenAI := by
    decide
  simpa using h.2 ("OPENAI_API_KEY", "k1") hmem

/-- Claim C3: when the model name contains a slash, the provider prefix
selects the key variable that is looked up and (if non-empty) forwarded:
ANTHROPIC_API_KEY for "anthropic" or the empty provider, OPENAI_API_KEY
for "openai", GEMINI_API_KEY for "gemini" or "google"; and with
`modelName = "openai/gpt-5"` and ambient `OPENAI_API_KEY = "k1"`, the
environment map is exactly that one entry. -/
theorem provider_env_variable_mapping (m : String)
    (ambient : String → Option String) (hm : m.data.contains '/' = true) :
    ((providerOf m = "anthropic" ∨ providerOf m = "") →
      apiKeyEnv (some m) ambient = keyEntry ambient "ANTHROPIC_API_KEY") ∧
    (providerOf m = "openai" →
      apiKeyEnv (some m) ambient = keyEntry ambient "OPENAI_API_KEY") ∧
    ((providerOf m = "gemini" ∨ providerOf m = "google") →
      apiKeyEnv (some m) ambient = keyEntry ambient "GEMINI_API_KEY") ∧
    (∀ a2 : String → Option String, a2 "OPENAI_API_KEY" = some "k1" →
      apiKeyEnv (some "openai/gpt-5") a2 = [("OPENAI_API_KEY", "k1")]) := by
  have hm0 : m ≠ "" := by
    intro h
    subst h
    simp [List.contains] at hm
  refine ⟨fun h1 => ?_, fun h2 => ?_, fun h3 => ?_, fun a2 ha2 => ?_⟩
  · have hr : resolvedKeyVar (some m) = some "ANTHROPIC_API_KEY" := by
      simp [resolvedKeyVar, hm0, h1]
    rw [apiKeyEnv_eq_resolved, hr]
    rfl
  · have h1 : ¬ (providerOf m = "anthropic" ∨ providerOf m = "") := by
      rw [h2]; decide
    have hr : resolvedKeyVar (some m) = some "OPENAI_API_KEY" := by
      simp [resolvedKeyVar, hm0, h1, h2]
    rw [apiKeyEnv_eq_resolved, hr]
    rfl
  · have h1 : ¬ (providerOf m = "anthropic" ∨ providerOf m = "") := by
      rcases h3 with h | h <;> rw [h] <;> decide
    have h2 : ¬ providerOf m = "openai" := by
      rcases h3 with h | h <;> rw [h] <;> decide
    have hr : resolvedKeyVar (some m) = some "GEMINI_API_KEY" := by
      simp [resolvedKeyVar, hm0, h1, h2, h3]
    rw [apiKeyEnv_eq_resolved, hr]
    rfl
  · have hp : providerOf "openai/gpt-5" = "openai" := by decide
    have hr : resolvedKeyVar (some "openai/gpt-5") = some "OPENAI_API_KEY" := by decide
    rw [apiKeyEnv_eq_resolved, hr]
    simp [keyEntry, ha2]

/-- Witness for C3 at `m = "openai/gpt-5"` with ambient
`OPENAI_API_KEY=k1`. -/
theorem provider_env_variable_mapping_witness :
    ("openai/gpt-5" : String).data.contains '/' = true ∧
    apiKeyEnv (some "openai/gpt-5") sampleEnvOpenAI = [("OPENAI_API_KEY", "k1")] :=
  ⟨by decide,
    (provider_env_variable_mapping "openai/gpt-5" sampleEnvOpenAI (by decide)).2.2.2
      sampleEnvOpenAI (by decide)⟩

/-- Claim C4: a provider prefix outside the recognized set yields an
empty environment map for every ambient environment, with no error. -/
theorem unknown_provider_env_empty (m : String)
    (ambient : String → Option String)
    (h : providerOf m ∉ (["anthropic", "", "openai", "gemini", "google"] : List String)) :
    apiKeyEnv (some m) ambient = [] := by
  simp only [List.mem_cons, List.mem_singleton, not_or] at h
  obtain ⟨h1, h2, h3, h4, h5, -⟩ := h
  have hm0 : m ≠ "" := by
    intro hme
    subst hme
    exact h2 rfl
  have hr : resolvedKeyVar (some m) = none := by
    simp [resolvedKeyVar, hm0, h1, h2, h3, h4, h5]
  rw [apiKeyEnv_eq_resolved, hr]
  rfl

/-- Witness for C4 at `m = "unknownprovider/x"` with all three keys set
and non-empty in the ambient environment. -/
theorem unknown_provider_env_empty_witness :
    providerOf "unknownprovider/x" ∉
      (["anthropic", "", "openai", "gemini", "google"] : List String) ∧
    apiKeyEnv (some "unknownprovider/x") sampleEnvAll = [] :=
  ⟨by decide, unknown_provider_env_empty "unknownprovider/x" sampleEnvAll (by decide)⟩

/-- Claim C5: an absent or empty model name takes the default path and
looks up ANTHROPIC_API_KEY; when that variable is unset or empty in the
ambient environment, the environment map is empty. -/
theorem default_model_uses_anthropic (ambient : String → Option String)
    (h : ambient "ANTHROPIC_API_KEY" = none ∨ ambient "ANTHROPIC_API_KEY" = some "") :
    apiKeyEnv none ambient = keyEntry ambient "ANTHROPIC_API_KEY" ∧
    apiKeyEnv (some "") ambient = keyEntry ambient "ANTHROPIC_API_KEY" ∧
    apiKeyEnv none ambient = [] ∧
    apiKeyEnv (some "") ambient = [] := by
  have he : keyEntry ambient "ANTHROPIC_API_KEY" = [] := by
    rcases h with h | h <;> simp [keyEntry, h]
  exact ⟨rfl, rfl, he, he⟩

/-- Witness for C5 at the empty ambient environment. -/
theorem default_model_uses_anthropic_witness :
    apiKeyEnv none sampleEnvNone = [] ∧ apiKeyEnv (some "") sampleEnvNone = [] := by
  have h := default_model_uses_anthropic sampleEnvNone (Or.inl rfl)
  exact ⟨h.2.2.1, h.2.2.2⟩

/-- Claim C6: the produced command prepends the PATH adjustment putting
`/root/go/bin` and `/usr/local/go/bin` ahead of the existing PATH,
invokes `cpe` with exactly the flags `-n -G --skip-stdin` followed by the
escaped instruction, and pipes combined stdout+stderr through tee to
`/logs/agent/cpe.txt`. -/
theorem command_fixed_shape (modelName : Option String)
    (ambient : String → Option String) (instruction : String) :
    ∃ e, createRunAgentCommands modelName ambient instruction = [e] ∧
      e.command = exportPart ++ (cpeFlagsPart ++ shlexQuote instruction ++ " ") ++ redirectPart ∧
      exportPart = "export PATH=\"" ++ "/root/go/bin" ++ ":" ++ "/usr/local/go/bin" ++
        ":" ++ "$PATH" ++ "\" && " ∧
      cpeFlagsPart = "cpe" ++ " -n" ++ " -G" ++ " --skip-stdin" ++ " " ∧
      redirectPart = "2>&1" ++ " | " ++ "tee " ++ "/logs/agent/cpe.txt" :=
  ⟨_, rfl, rfl, by decide, by decide, by decide⟩

/-- Claim C7: the post-run hook leaves the agent context unchanged in
every field. -/
theorem post_run_leaves_context_unchanged (context : AgentContext) :
    populate_context_post_run context = context ∧
    (populate_context_post_run context).results = context.results ∧
    (populate_context_post_run context).metadata = context.metadata :=
  ⟨rfl, rfl, rfl⟩

/-- Claim C8: the returned command sequence always has length exactly 1. -/
theorem run_commands_always_singleton (modelName : Option String)
    (ambient : String → Option String) (instruction : String) :
    (createRunAgentCommands modelName ambient instruction).length = 1 :=
  rfl

/-- Claim C9: when no version override is configured (the stored version
is absent or falsy), `version` returns the sentinel "latest". -/
theorem version_defaults_to_latest (stored : Option String)
    (h : stored = none ∨ stored = some "") :
    version stored = "latest" := by
  rcases h with rfl | rfl <;> rfl

/-- Witness for C9 at `stored = none`. -/
theorem version_defaults_to_latest_witness : version none = "latest" :=
  version_defaults_to_latest none (Or.inl rfl)

/-- Character-wise ASCII lowercasing, used to state that a provider
prefix differs from a recognized provider only in letter case. -/
def lowerAscii (s : String) : String :=
  (s.data.map Char.toLower).asString

/-- Claim C10: provider matching is case-sensitive — every model name
whose provider prefix is not itself a recognized provider but whose
lowercasing is one (it differs from a recognized provider only in letter
case, e.g. "Anthropic/claude-3" or "OpenAI/gpt-5") produces an empty
environment map for every ambient environment, in particular even when
the corresponding API-key variable is set and non-empty. -/
theorem provider_match_case_sensitive (m : String)
    (ambient : String → Option String)
    (hne : providerOf m ∉ (["anthropic", "", "openai", "gemini", "google"] : List String))
    (hcase : lowerAscii (providerOf m) ∈
      (["anthropic", "", "openai", "gemini", "google"] : List String)) :
    apiKeyEnv (some m) ambient = [] := by
  simp only [List.mem_cons, List.mem_singleton, not_or] at hne
  obtain ⟨h1, h2, h3, h4, h5, -⟩ := hne
  have hm0 : m ≠ "" := by
    intro hme
    subst hme
    exact h2 rfl
  have hr : resolvedKeyVar (some m) = none := by
    simp [resolvedKeyVar, hm0, h1, h2, h3, h4, h5]
  rw [apiKeyEnv_eq_resolved, hr]
  rfl

/-- Witness for C10 at the claim's two example model names, with all
three API keys set and non-empty in the ambient environment. -/
theorem provider_match_case_sensitive_witness :
    (providerOf "Anthropic/claude-3" ∉
        (["anthropic", "", "openai", "gemini", "google"] : List String) ∧
      lowerAscii (providerOf "Anthropic/claude-3") ∈
        (["anthropic", "", "openai", "gemini", "google"] : List String) ∧
      apiKeyEnv (some "Anthropic/claude-3") sampleEnvAll = []) ∧
    (providerOf "OpenAI/gpt-5" ∉
        (["anthropic", "", "openai", "gemini", "google"] : List String) ∧
      lowerAscii (providerOf "OpenAI/gpt-5") ∈
        (["anthropic", "", "openai", "gemini", "google"] : List String) ∧
      apiKeyEnv (some "OpenAI/gpt-5") sampleEnvAll = []) :=
  ⟨⟨by decide, by decide,
      provider_match_case_sensitive "Anthropic/claude-3" sampleEnvAll (by decide) (by decide)⟩,
    ⟨by decide, by decide,
      provider_match_case_sensitive "OpenAI/gpt-5" sampleEnvAll (by decide) (by decide)⟩⟩

/-! ## Shell-splitting lemmas for the escaped instruction -/

/-- A safe character is not a blank, not a quote, and not a shell
metacharacter. -/
lemma isSafeChar_spec (c : Char) (h : isSafeChar c = true) :
    c ≠ ' ' ∧ c ≠ '\'' ∧ c ≠ '"' ∧ isShSpecial c = false := by
  refine ⟨fun hc => by subst hc; exact absurd h (by decide),
    fun hc => by subst hc; exact absurd h (by decide),
    fun hc => by subst hc; exact absurd h (by decide), ?_⟩
  cases hsp : isShSpecial c with
  | false => rfl
  | true =>
      exfalso
      have hd : c = '$' ∨ c = '`' ∨ c = '\\' ∨ c = '|' ∨ c = '&' ∨ c = ';' ∨
          c = '<' ∨ c = '>' ∨ c = '(' ∨ c = ')' ∨ c = '*' ∨ c = '?' ∨
          c = '[' ∨ c = '#' ∨ c = '~' ∨ c = '\n' ∨ c = '\t' := by
        simpa [isShSpecial, or_assoc] using hsp
      rcases hd with rfl | rfl | rfl | rfl | rfl | rfl | rfl | rfl | rfl | rfl | rfl |
        rfl | rfl | rfl | rfl | rfl | rfl <;> exact absurd h (by decide)

/-- One unquoted step of the lexer on a safe character extends the
current word. -/
lemma tokLoop_norm_cons_safe (started : Bool) (acc : List Char) (c : Char)
    (rest : List Char) (h1 : c ≠ ' ') (h2 : c ≠ '\'') (h3 : c ≠ '"')
    (h4 : isShSpecial c = false) :
    tokLoop .norm started acc (c :: rest) = tokLoop .norm true (acc ++ [c]) rest := by
  simp only [tokLoop]
  rw [if_neg h1, if_neg h2, if_neg h3, h4]
  simp

/-- Consuming a run of safe characters in unquoted mode appends them to
the current word. -/
lemma tokLoop_safe_run (s : List Char) (rest acc : List Char)
    (h : s.all isSafeChar = true) :
    tokLoop .norm true acc (s ++ rest) = tokLoop .norm true (acc ++ s) rest := by
  induction s generalizing acc with
  | nil => simp
  | cons c s ih =>
      simp only [List.all_cons, Bool.and_eq_true] at h
      obtain ⟨hc, hs⟩ := h
      obtain ⟨h1, h2, h3, h4⟩ := isSafeChar_spec c hc
      rw [List.cons_append, tokLoop_norm_cons_safe true acc c (s ++ rest) h1 h2 h3 h4,
        ih (acc ++ [c]) hs]
      simp

/-- Single-quoted mode: a closing quote returns to unquoted mode. -/
lemma step_sq_quote (acc rest : List Char) :
    tokLoop .sq true acc ('\'' :: rest) = tokLoop .norm true acc rest := by
  simp [tokLoop]

/-- Single-quoted mode: any other character is literal. -/
lemma step_sq_other (acc : List Char) (c : Char) (rest : List Char) (hc : c ≠ '\'') :
    tokLoop .sq true acc (c :: rest) = tokLoop .sq true (acc ++ [c]) rest := by
  simp only [tokLoop]
  rw [if_neg hc]

/-- Unquoted mode: an opening double quote enters double-quoted mode. -/
lemma step_norm_dquote (started : Bool) (acc rest : List Char) :
    tokLoop .norm started acc ('"' :: rest) = tokLoop .dq true acc rest := by
  simp [tokLoop]

/-- Unquoted mode: an opening single quote enters single-quoted mode. -/
lemma step_norm_quote (started : Bool) (acc rest : List Char) :
    tokLoop .norm started acc ('\'' :: rest) = tokLoop .sq true acc rest := by
  simp [tokLoop]

/-- Unquoted mode: a blank after a started word emits the word. -/
lemma step_norm_space (acc rest : List Char) :
    tokLoop .norm true acc (' ' :: rest) =
      Option.map (fun ws => acc :: ws) (tokLoop .norm false [] rest) := by
  simp [tokLoop]

/-- Double-quoted mode: a single quote is literal. -/
lemma step_dq_quote (acc rest : List Char) :
    tokLoop .dq true acc ('\'' :: rest) = tokLoop .dq true (acc ++ ['\'']) rest := by
  simp [tokLoop]

/-- Double-quoted mode: a closing double quote returns to unquoted mode. -/
lemma step_dq_dquote (acc rest : List Char) :
    tokLoop .dq true acc ('"' :: rest) = tokLoop .norm true acc rest := by
  simp [tokLoop]

/-- Consuming the single-quote-escaped body of `s` in single-quoted mode
appends exactly `s` to the current word and stays in single-quoted mode:
each ordinary character is literal, and each embedded quote detours
through a double-quoted quote and back. -/
lemma tokLoop_sq_run (s : List Char) (acc rest : List Char) :
    tokLoop .sq true acc (quoteBody s ++ rest) = tokLoop .sq true (acc ++ s) rest := by
  induction s generalizing acc with
  | nil => simp [quoteBody]
  | cons c s ih =>
      by_cases hc : c = '\''
      · subst hc
        have e1 : quoteBody ('\'' :: s) ++ rest =
            '\'' :: '"' :: '\'' :: '"' :: '\'' :: (quoteBody s ++ rest) := by
          simp [quoteBody, quoteChar]
        rw [e1, step_sq_quote, step_norm_dquote, step_dq_quote, step_dq_dquote,
          step_norm_quote, ih (acc ++ ['\''])]
        simp
      · have e1 : quoteBody (c :: s) ++ rest = c :: (quoteBody s ++ rest) := by
          simp [quoteBody, quoteChar, if_neg hc]
        rw [e1, step_sq_other acc c _ hc, ih (acc ++ [c])]
        simp

/-- The fixed invocation head `cpe -n -G --skip-stdin ` as characters. -/
def cpeHeadChars : List Char :=
  ['c', 'p', 'e', ' ', '-', 'n', ' ', '-', 'G', ' ', '-', '-', 's', 'k', 'i', 'p',
    '-', 's', 't', 'd', 'i', 'n', ' ']

/-- The four fixed words of the invocation head. -/
def cpeHeadWords : List (List Char) :=
  [['c', 'p', 'e'], ['-', 'n'], ['-', 'G'],
    ['-', '-', 's', 'k', 'i', 'p', '-', 's', 't', 'd', 'i', 'n']]

/-- Splitting the fixed invocation head yields its four words and leaves
the rest of the input to be split from a fresh word. -/
lemma tokLoop_cpe_head (l : List Char) :
    tokLoop .norm false [] (cpeHeadChars ++ l) =
      Option.map (fun ws => cpeHeadWords ++ ws) (tokLoop .norm false [] l) := by
  cases htl : tokLoop .norm false [] l with
  | none => simp [cpeHeadChars, cpeHeadWords, tokLoop, isShSpecial, htl]
  | some ws => simp [cpeHeadChars, cpeHeadWords, tokLoop, isShSpecial, htl]

/-- Splitting the quoted instruction (followed by a blank) from a fresh
word yields exactly the instruction as one word. -/
lemma tokLoop_quoted_word (s : List Char) :
    tokLoop .norm false [] (shlexQuoteL s ++ [' ']) = some [s] := by
  by_cases h0 : s = []
  · subst h0
    rfl
  · by_cases hsafe : s.all isSafeChar
    · rw [shlexQuoteL, if_neg h0, if_pos hsafe]
      obtain ⟨c, s', rfl⟩ := List.exists_cons_of_ne_nil h0
      simp only [List.all_cons, Bool.and_eq_true] at hsafe
      obtain ⟨hc, hs'⟩ := hsafe
      obtain ⟨h1, h2, h3, h4⟩ := isSafeChar_spec c hc
      rw [List.cons_append, tokLoop_norm_cons_safe false [] c (s' ++ [' ']) h1 h2 h3 h4,
        show ([] : List Char) ++ [c] = [c] from rfl,
        tokLoop_safe_run s' [' '] [c] hs',
        show ([c] : List Char) ++ s' = c :: s' from rfl,
        step_norm_space (c :: s') []]
      rfl
    · rw [shlexQuoteL, if_neg h0, if_neg hsafe,
        show ('\'' :: (quoteBody s ++ ['\''])) ++ [' '] =
          '\'' :: (quoteBody s ++ ('\'' :: [' '])) from by simp,
        step_norm_quote false [] (quoteBody s ++ ('\'' :: [' '])),
        tokLoop_sq_run s [] ('\'' :: [' ']),
        List.nil_append,
        step_sq_quote s [' '],
        step_norm_space s []]
      rfl

/-- Splitting the invocation head, the quoted instruction and a trailing
blank yields the four fixed words followed by the instruction itself. -/
lemma shellFields_cpe_quote (s : List Char) :
    shellFields (cpeHeadChars ++ shlexQuoteL s ++ [' ']) =
      some (cpeHeadWords ++ [s]) := by
  rw [shellFields, List.append_assoc, tokLoop_cpe_head (shlexQuoteL s ++ [' ']),
    tokLoop_quoted_word s]
  rfl

/-- Claim C1: for every instruction string — including instructions with
quotes, dollar signs, backquotes, semicolons or whitespace — the command
built by `create_run_agent_commands` embeds the `shlex.quote`-escaped
instruction between the fixed invocation head and the redirection tail,
and POSIX field splitting of that invocation recovers the instruction as
exactly one unmodified argument to `cpe`, after the flags. -/
theorem instruction_single_shell_argument (modelName : Option String)
    (ambient : String → Option String) (instr : String) :
    ∃ e, createRunAgentCommands modelName ambient instr = [e] ∧
      e.command.data =
        exportPart.data ++ (cpeHeadChars ++ shlexQuoteL instr.data ++ [' ']) ++
          redirectPart.data ∧
      shellFields (cpeHeadChars ++ shlexQuoteL instr.data ++ [' ']) =
        some ["cpe".data, "-n".data, "-G".data, "--skip-stdin".data, instr.data] := by
  refine ⟨_, rfl, ?_, ?_⟩
  · show (runCommandString instr).data = _
    rw [runCommandString, data_append, data_append]
    rw [show (cpeFlagsPart ++ shlexQuote instr ++ " ").data =
        cpeHeadChars ++ shlexQuoteL instr.data ++ [' '] from by
      rw [data_append, data_append]
      rw [show cpeFlagsPart.data = cpeHeadChars from rfl,
        show (" " : String).data = [' '] from rfl,
        show (shlexQuote instr).data = shlexQuoteL instr.data from
          congrArg String.data (rfl : shlexQuote instr = (shlexQuoteL instr.data).asString) ▸
            rfl]]
  · rw [shellFields_cpe_quote instr.data]
    rfl

end CpeHarbor
